import Mathlib

/-!
Verification of the MetaPhlAn profile-transformation utilities
(`fix_relab_mpa4.py` and `sgb_to_gtdb_profile.py`) against their
natural-language specification.

The Python sources are shallowly embedded: strings are Lean `String`s
manipulated through executable list-of-character operations mirroring the
Python string methods used by the scripts (`split`, `join`, `strip`,
`startswith`, `in`, `replace`, slicing), floats are modelled as `ℚ`, and
`round(x, 5)` is modelled as exact half-even decimal rounding on `ℚ`.
-/

/- `Batteries` marks the arithmetic on `ℚ` irreducible, which blocks `decide`
on concrete rational computations; restore the default reducibility so the
embedded pipelines can be evaluated inside proofs. -/
set_option allowUnsafeReducibility true in
attribute [semireducible] Rat.add Rat.mul Rat.inv Rat.sub Rat.ofScientific

namespace MetaPhlAn

/-- Split a list of characters on a separator character; mirrors Python
`str.split(sep)` for a one-character separator (always returns a nonempty
list of segments, empty segments preserved). -/
def splitChar (sep : Char) : List Char → List (List Char)
  | [] => [[]]
  | c :: cs =>
    let r := splitChar sep cs
    if c = sep then [] :: r
    else
      match r with
      | [] => [[c]]
      | h :: t => (c :: h) :: t

/-- Join lists of characters with a separator character; mirrors Python
`sep.join(parts)` for a one-character separator. -/
def joinLists (sep : Char) (ls : List (List Char)) : List Char :=
  (ls.intersperse [sep]).flatten

/-- Python `s.split(sep)` on a `String`, one-character separator. -/
def strSplit (s : String) (sep : Char) : List String :=
  (splitChar sep s.toList).map String.mk

/-- Python `sep.join(parts)` on `String`s, one-character separator. -/
def joinSep (sep : Char) (ls : List String) : String :=
  String.mk (joinLists sep (ls.map String.toList))

/-- Auxiliary substring search: does `pat` occur (as a contiguous sublist)
in the list? -/
def containsAux (pat : List Char) : List Char → Bool
  | [] => List.isPrefixOf pat []
  | c :: cs => List.isPrefixOf pat (c :: cs) || containsAux pat cs

/-- Python `pat in s` (substring containment). -/
def strContains (s pat : String) : Bool :=
  containsAux pat.toList s.toList

/-- Python `s.startswith(pat)`. -/
def strStartsWith (s pat : String) : Bool :=
  List.isPrefixOf pat.toList s.toList

/-- Is the character one of the whitespace characters removed by Python
`str.strip()`? -/
def isPySpace (c : Char) : Bool :=
  c == ' ' || c == '\t' || c == '\n' || c == '\r'

/-- Python `s.strip()`. -/
def strTrim (s : String) : String :=
  String.mk (((s.toList.dropWhile isPySpace).reverse.dropWhile isPySpace).reverse)

/-- Python `s[n:]` for a nonnegative index. -/
def strDrop (s : String) (n : Nat) : String :=
  String.mk (s.toList.drop n)

/-- Value of a list of decimal digit characters. -/
def digitsToNat (l : List Char) : Nat :=
  l.foldl (fun a c => a * 10 + (c.toNat - 48)) 0

/-- Parse an unsigned decimal numeral (with optional fractional part) into `ℚ`. -/
def parseRatL (l : List Char) : ℚ :=
  match splitChar '.' l with
  | [i] => (digitsToNat i : ℚ)
  | [i, f] => (digitsToNat i : ℚ) + (digitsToNat f : ℚ) / (10 ^ f.length)
  | _ => 0

/-- Python `float(s)` for the decimal numerals appearing in profiles. -/
def parseRat (s : String) : ℚ :=
  match (strTrim s).toList with
  | '-' :: rest => - parseRatL rest
  | l => parseRatL l

/-- Round a rational to the nearest integer, ties to even; the rounding of
Python `round`. -/
def roundHalfEven (q : ℚ) : ℤ :=
  let f := ⌊q⌋
  let r := q - f
  if r < 1/2 then f
  else if 1/2 < r then f + 1
  else if f % 2 = 0 then f else f + 1

/-- Python `round(q, 5)`. -/
def round5 (q : ℚ) : ℚ :=
  (roundHalfEven (q * 100000) : ℚ) / 100000

/-- Fuel-measured engine for Python `str.replace`: replaces each
non-overlapping occurrence of `pat`, scanning left to right. -/
def replFuel (pat rep : List Char) : Nat → List Char → List Char
  | 0, s => s
  | _ + 1, [] => []
  | n + 1, c :: cs =>
    if pat ≠ [] ∧ List.isPrefixOf pat (c :: cs) then
      rep ++ replFuel pat rep n (List.drop pat.length (c :: cs))
    else
      c :: replFuel pat rep n cs

/-- Python `s.replace(pat, rep)` (for nonempty `pat`). -/
def pythonReplace (s pat rep : String) : String :=
  String.mk (replFuel pat.toList rep.toList s.toList.length s.toList)

/-- Digits of a `Nat`, zero-padded on the left to width 5. -/
def natPad5 (n : Nat) : List Char :=
  let ds := Nat.toDigits 10 n
  List.replicate (5 - ds.length) '0' ++ ds

/-- Remove trailing `'0'` characters. -/
def stripTrailingZeros (l : List Char) : List Char :=
  (l.reverse.dropWhile (fun c => c == '0')).reverse

/-- Python `str(x)` for the floats written by the scripts (exact for values
that are integer multiples of `10⁻⁵`, which is the case for every rounded
value the repair script writes). -/
def showRatPy (q : ℚ) : String :=
  let neg := q < 0
  let a : ℚ := if q < 0 then -q else q
  let ip := Nat.toDigits 10 (⌊a⌋).toNat
  let fp : Nat := (⌊(a - (⌊a⌋ : ℚ)) * 100000⌋).toNat
  let fs := stripTrailingZeros (natPad5 fp)
  let frac := if fs = [] then ['0'] else fs
  String.mk ((if neg then ['-'] else []) ++ ip ++ '.' :: frac)

/-! ### Insertion-ordered dictionaries

Python `dict`s keyed by lineage strings are modelled as insertion-ordered
association lists: assignment to a fresh key appends, assignment to an
existing key replaces in place. -/

/-- Association list keyed by strings. -/
abbrev AList (α : Type) := List (String × α)

/-- Python `d.get(k)` / `k in d`. -/
def alGet {α : Type} (l : AList α) (k : String) : Option α :=
  (l.find? (fun p => p.1 == k)).map (fun p => p.2)

/-- Python `d[k] = v`: overwrite the existing binding in place, or append. -/
def alPut {α : Type} : AList α → String → α → AList α
  | [], k, v => [(k, v)]
  | (k', v') :: r, k, v =>
    if k' == k then (k, v) :: r else (k', v') :: alPut r k v

/-- Modify the value bound to an existing key in place. -/
def alModify {α : Type} (f : α → α) : AList α → String → AList α
  | [], _ => []
  | (k', v') :: r, k =>
    if k' == k then (k', f v') :: r else (k', v') :: alModify f r k

/-! ### The profile-repair pipeline (`fix_relab_mpa4.py`) -/

/-- A non-merged rank-table cell: `[name, relative abundance, extra]`,
mirroring the three-element lists stored in `taxa_levs`. -/
structure Entry where
  name : String
  ab : ℚ
  extra : String
deriving DecidableEq, Repr

/-- `'|'.join(ss.split('|')[:-1])`: the parent lineage computed by
`assign_higher_taxonomic_levels`. -/
def parentKey (s : String) : String :=
  joinSep '|' ((strSplit s '|').dropLast)

/-- State accumulated by the streaming read in `fix_relab_mpa4`:
the eight rank tables `taxa_levs` (index 7 = the `t__` leaf level), the
release tag, the unclassified fraction and the lines already written. -/
structure FixState where
  t0 : AList Entry
  t1 : AList Entry
  t2 : AList Entry
  t3 : AList Entry
  t4 : AList Entry
  t5 : AList Entry
  t6 : AList Entry
  t7 : AList Entry
  release : Option String
  uncl : ℚ
  out : List String
deriving DecidableEq

def initFixState : FixState :=
  ⟨[], [], [], [], [], [], [], [], none, 0, []⟩

def recognizedJun23 : String := "mpa_vJun23_CHOCOPhlAnSGB_202307"
def recognizedOct22 : String := "mpa_vOct22_CHOCOPhlAnSGB_202212"

def releaseErrMsg : String :=
  "The release is not specified in the header or does not correspond to mpa_vJun23_CHOCOPhlAnSGB_202307 or mpa_vOct22_CHOCOPhlAnSGB_202212"

/-- The two fixed substring replacements applied to a raw data line when the
release is `mpa_vJun23_CHOCOPhlAnSGB_202307` (note the `elif` in the
source: the family rename is only attempted when the phylum substring is
absent). -/
def jun23Fix (line : String) : String :=
  if strContains line "p__Bacillota" then
    pythonReplace line "p__Bacillota" "p__Firmicutes"
  else if strContains line "f__Saccharomycetales_unclassified" then
    pythonReplace line "f__Saccharomycetales_unclassified" "f__Debaryomycetaceae"
  else line

/-- `taxa_levs[-1][line[0]] = [line[1], float(line[2]), line[3] if len(line) == 4 else '']` -/
def insertLeaf (st : FixState) (fields : List String) : FixState :=
  { st with
      t7 := alPut st.t7 (fields.getD 0 "")
        ⟨fields.getD 1 "", parseRat (fields.getD 2 ""),
          if fields.length = 4 then fields.getD 3 "" else ""⟩ }

/-- One iteration of the streaming loop of `fix_relab_mpa4` (non-merged
profile), over one input line. `octFixes` is the pre-loaded Oct22
correction table mapping an old lineage to (new lineage, new tax id). -/
def processLineFix (octFixes : AList (String × String)) (st : FixState)
    (line : String) : Except String FixState :=
  if strStartsWith line "#mpa_v" then
    .ok { st with
            release := some (strDrop (strTrim line) 1),
            out := st.out ++
              [strTrim (joinSep '_' ((strSplit line '_').dropLast)) ++ "_202403\n"] }
  else if strStartsWith line "#" || strStartsWith line "clade_name" then
    .ok { st with out := st.out ++ [line] }
  else if strStartsWith line "UNCLASSIFIED" then
    .ok { st with
            out := st.out ++ [line],
            uncl := parseRat ((strSplit line '\t').getD 2 "") }
  else if strContains line "t__" then
    match st.release with
    | some r =>
      if r = recognizedJun23 then
        .ok (insertLeaf st (strSplit (strTrim (jun23Fix line)) '\t'))
      else if r = recognizedOct22 then
        let fields := strSplit (strTrim line) '\t'
        let fields' :=
          match alGet octFixes (fields.getD 0 "") with
          | some nt => nt.1 :: nt.2 :: fields.drop 2
          | none => fields
        .ok (insertLeaf st fields')
      else .error releaseErrMsg
    | none => .error releaseErrMsg
  else .ok st

/-- The streaming loop over all input lines; a fatal `error(..., exit=True)`
aborts the run. -/
def runLinesFix (octFixes : AList (String × String)) :
    FixState → List String → Except String FixState
  | st, [] => .ok st
  | st, l :: ls =>
    match processLineFix octFixes st l with
    | .ok st' => runLinesFix octFixes st' ls
    | .error e => .error e

/-- One sweep of `assign_higher_taxonomic_levels` (non-merged) from the
rank table `child` into the rank table `parent`: each child is summed into
the parent keyed by its lineage with the last segment dropped; a fresh
parent gets the child's value and a truncated name, an existing parent
accumulates. -/
def aggStep (child parent : AList Entry) : AList Entry :=
  child.foldl
    (fun acc p =>
      let gg := parentKey p.1
      let ggn := parentKey p.2.name
      match alGet acc gg with
      | none => acc ++ [(gg, ⟨ggn, p.2.ab, ""⟩)]
      | some _ => alModify (fun e => ⟨e.name, e.ab + p.2.ab, e.extra⟩) acc gg)
    parent

/-- `assign_higher_taxonomic_levels(taxa_levs, merged=False)`: sweep the
leaf level upward through the seven higher rank tables, each sweep reading
the table just updated. -/
def assignHigher (st : FixState) : FixState :=
  let a6 := aggStep st.t7 st.t6
  let a5 := aggStep a6 st.t5
  let a4 := aggStep a5 st.t4
  let a3 := aggStep a4 st.t3
  let a2 := aggStep a3 st.t2
  let a1 := aggStep a2 st.t1
  let a0 := aggStep a1 st.t0
  { st with t0 := a0, t1 := a1, t2 := a2, t3 := a3, t4 := a4, t5 := a5,
            t6 := a6 }

/-- The merged (multi-sample) variant of one aggregation sweep: cells are
vectors, accumulation is elementwise (`np.add`). -/
def mAggStep (child parent : AList (List ℚ)) : AList (List ℚ) :=
  child.foldl
    (fun acc p =>
      let gg := parentKey p.1
      match alGet acc gg with
      | none => acc ++ [(gg, p.2)]
      | some _ => alModify (fun v => List.zipWith (fun a b => a + b) v p.2) acc gg)
    parent

/-- Sum of the abundances in one rank table (`sum_level[level]`). -/
def sumVals (t : AList Entry) : ℚ :=
  (t.map (fun p => p.2.ab)).sum

/-- Renormalization of one rank table: every abundance is rescaled by
`round(100 * v / total_sum, 5)` where `total_sum` is the rank sum plus the
unclassified fraction. -/
def normLevel (u : ℚ) (t : AList Entry) : AList Entry :=
  t.map (fun p => (p.1, ⟨p.2.name, round5 (100 * p.2.ab / (sumVals t + u)), p.2.extra⟩))

/-- `wf.write(tax + '\t' + '\t'.join([str(x) for x in taxa_levs[level][tax]]) + '\n')` -/
def writeLevel (t : AList Entry) : List String :=
  t.map (fun p => p.1 ++ "\t" ++ p.2.name ++ "\t" ++ showRatPy p.2.ab ++ "\t"
    ++ p.2.extra ++ "\n")

/-- Result of a successful `fix_relab_mpa4` run: the output lines, the
renormalized rank tables (index 0 = domain, shallowest), and the
unclassified fraction. -/
structure FixResult where
  outLines : List String
  finalLevels : List (AList Entry)
  uncl : ℚ
deriving DecidableEq

/-- `fix_relab_mpa4(input, output, merged=False)`: stream the input lines,
aggregate upward, renormalize each rank against its sum plus the
unclassified fraction, and write the rank blocks shallowest level first. -/
def fix_relab_mpa4 (octFixes : AList (String × String)) (lines : List String) :
    Except String FixResult :=
  match runLinesFix octFixes initFixState lines with
  | .error e => .error e
  | .ok st =>
    let st' := assignHigher st
    let lv := [st'.t0, st'.t1, st'.t2, st'.t3, st'.t4, st'.t5, st'.t6, st'.t7]
    let normed := lv.map (normLevel st'.uncl)
    .ok ⟨st'.out ++ (normed.map writeLevel).flatten, normed, st'.uncl⟩

/-- Did the run complete without a fatal error? -/
def isOkE {ε α : Type} : Except ε α → Bool
  | .ok _ => true
  | .error _ => false

def emptyFixResult : FixResult := ⟨[], [], 0⟩

def fixOf (r : Except String FixResult) : FixResult :=
  match r with
  | .ok x => x
  | .error _ => emptyFixResult

/-! ### The cross-nomenclature pipeline (`sgb_to_gtdb_profile.py`) -/

/-- The fixed rank ladder `tax_levels = ['d', 'p', 'c', 'o', 'f', 'g', 's']`. -/
def gtdbTaxLevels : List String := ["d", "p", "c", "o", "f", "g", "s"]

/-- `tax_levels.reverse()` before the bottom-up aggregation loop. -/
def sgbAggLevels : List String := gtdbTaxLevels.reverse

/-- `tax_levels.reverse()` again before the write loop: the order in which
`get_gtdb_profile` emits the rank blocks. -/
def sgbWriteLevels : List String := sgbAggLevels.reverse

/-- `tax.replace(';{}'.format(tax.split(';')[-1]), '')`: the parent key
computed by `get_gtdb_profile`, deleting every occurrence of
`';' + last segment` from the lineage. -/
def sgbParentKey (tax : String) : String :=
  pythonReplace tax (";" ++ (strSplit tax ';').getLastD "") ""

/-- `if k not in d: d[k] = 0` followed by `d[k] += v`. -/
def alAdd (t : AList ℚ) (k : String) (v : ℚ) : AList ℚ :=
  match alGet t k with
  | none => t ++ [(k, v)]
  | some _ => alModify (fun x => x + v) t k

/-- State accumulated by `get_gtdb_profile`: one abundance table per GTDB
rank, the unclassified value, and the lines already written. -/
structure GState where
  lvD : AList ℚ
  lvP : AList ℚ
  lvC : AList ℚ
  lvO : AList ℚ
  lvF : AList ℚ
  lvG : AList ℚ
  lvS : AList ℚ
  uncl : ℚ
  out : List String
deriving DecidableEq

def initGState : GState := ⟨[], [], [], [], [], [], [], 0, []⟩

/-- One iteration of the reading loop of `get_gtdb_profile` over one input
line; `sgb2gtdb` is the pre-loaded SGB-to-GTDB lookup table. A species
identifier missing from the table is a fatal lookup failure (`KeyError`). -/
def processLineSgb (sgb2gtdb : AList String) (st : GState) (line : String) :
    Except String GState :=
  if strStartsWith line "#mpa_" then
    .ok { st with out := st.out ++ [line, "#clade_name\trelative_abundance\n"] }
  else if strStartsWith line "UNCLASSIFIED" then
    let u := parseRat ((strSplit (strTrim line) '\t').getD 2 "")
    .ok { st with uncl := u,
                  out := st.out ++ ["UNCLASSIFIED\t" ++ showRatPy u ++ "\n"] }
  else if strContains line "t__SGB" then
    let fields := strSplit (strTrim line) '\t'
    let sgbId := strDrop ((strSplit (fields.getD 0 "") '|').getLastD "") 3
    match alGet sgb2gtdb sgbId with
    | none => .error "KeyError"
    | some gtdbTax =>
      .ok { st with lvS := alAdd st.lvS gtdbTax (parseRat (fields.getD 2 "")) }
  else .ok st

def runLinesSgb (sgb2gtdb : AList String) :
    GState → List String → Except String GState
  | st, [] => .ok st
  | st, l :: ls =>
    match processLineSgb sgb2gtdb st l with
    | .ok st' => runLinesSgb sgb2gtdb st' ls
    | .error e => .error e

/-- One sweep of the bottom-up aggregation loop of `get_gtdb_profile`:
each child's abundance is added into the parent keyed by `sgbParentKey`. -/
def gAggStep (child parent : AList ℚ) : AList ℚ :=
  child.foldl (fun acc p => alAdd acc (sgbParentKey p.1) p.2) parent

/-- The aggregation loop `for tax_level in tax_levels[:-1]` over the
reversed ladder `s, g, f, o, c, p`, each sweep reading the table just
updated. -/
def gAgg (st : GState) : GState :=
  let g' := gAggStep st.lvS st.lvG
  let f' := gAggStep g' st.lvF
  let o' := gAggStep f' st.lvO
  let c' := gAggStep o' st.lvC
  let p' := gAggStep c' st.lvP
  let d' := gAggStep p' st.lvD
  { st with lvD := d', lvP := p', lvC := c', lvO := o', lvF := f', lvG := g' }

/-- `total4level[tax_level]`: the sum of one rank table's abundances (the
unclassified value is not included). -/
def gSum (t : AList ℚ) : ℚ :=
  (t.map (fun p => p.2)).sum

/-- The written values of one rank: `abundance * 100 / total4level`, with
no rounding. -/
def gNorm (t : AList ℚ) : AList ℚ :=
  t.map (fun p => (p.1, p.2 * 100 / gSum t))

/-- Result of a successful `get_gtdb_profile` run: the renormalized rank
tables in write order (`d` first), the taxon rows in emission order, the
pass-through/unclassified lines, and the unclassified value. -/
structure GRes where
  lvls : List (AList ℚ)
  rows : List (String × ℚ)
  out : List String
  uncl : ℚ
deriving DecidableEq

def mkGRes (st : GState) : GRes :=
  let ns := [gNorm st.lvD, gNorm st.lvP, gNorm st.lvC, gNorm st.lvO,
             gNorm st.lvF, gNorm st.lvG, gNorm st.lvS]
  ⟨ns, ns.flatten, st.out, st.uncl⟩

/-- `get_gtdb_profile(mpa_profile, gtdb_profile, database)` on the list of
input lines, with the lookup table supplied as a pre-built map. -/
def getGtdbProfile (sgb2gtdb : AList String) (lines : List String) :
    Except String GRes :=
  match runLinesSgb sgb2gtdb initGState lines with
  | .error e => .error e
  | .ok st => .ok (mkGRes (gAgg st))

def emptyGRes : GRes := ⟨[], [], [], 0⟩

def gOf (r : Except String GRes) : GRes :=
  match r with
  | .ok x => x
  | .error _ => emptyGRes

/-! ### Concrete runs used by the end-to-end theorems -/

/-- The end-to-end scenario of the spec: Jun23 header, `UNCLASSIFIED` 5.0,
one species row of 95.0 whose lineage contains `p__Bacillota`. -/
def exInput1 : List String :=
  [ "#mpa_vJun23_CHOCOPhlAnSGB_202307\n",
    "#clade_name\tNCBI_tax_id\trelative_abundance\tadditional_species\n",
    "UNCLASSIFIED\t-1\t5.0\n",
    "d__Bacteria|p__Bacillota|c__Bacilli|o__Lactobacillales|f__Lactobacillaceae|g__Lactobacillus|s__Foo|t__SGB1\t2|1239|91061|186826|33958|1578|999|1\t95.0\n" ]

def fixRes1 : Except String FixResult := fix_relab_mpa4 [] exInput1

/-- Two species rows whose lineages coincide after the Jun23 label fix
(`p__Bacillota` is rewritten to `p__Firmicutes`). -/
def exInput2 : List String :=
  [ "#mpa_vJun23_CHOCOPhlAnSGB_202307\n",
    "UNCLASSIFIED\t-1\t40.0\n",
    "d__Bacteria|p__Bacillota|c__C|o__O|f__F|g__G|s__S|t__SGB7\t2|3|4|5|6|7|8|9\t40.0\n",
    "d__Bacteria|p__Firmicutes|c__C|o__O|f__F|g__G|s__S|t__SGB7\t2|3|4|5|6|7|8|9\t60.0\n" ]

def fixRes2 : Except String FixResult := fix_relab_mpa4 [] exInput2

def sgbMap1 : AList String := [("SGB1", "d__A;p__B;c__C;o__D;f__E;g__F;s__G")]

/-- A conversion-pipeline input: header, `UNCLASSIFIED` 5.0, one species
row of 95.0 mapped to a full seven-rank GTDB lineage. -/
def gInput1 : List String :=
  [ "#mpa_vJan21_CHOCOPhlAnSGB_202103\n",
    "UNCLASSIFIED\t-1\t5.0\n",
    "d__Bacteria|p__X|c__X|o__X|f__X|g__X|s__X|t__SGB1\t2\t95.0\n" ]

def gRes1 : Except String GRes := getGtdbProfile sgbMap1 gInput1

def sgbMap2 : AList String :=
  [("SGB1", "d__A;p__B;c__C;o__D;f__E;g__F;s__G1"),
   ("SGB2", "d__A;p__B;c__C;o__D;f__E;g__F;s__G2")]

/-- A conversion-pipeline input with two species of abundances 1.0 and 2.0
mapped to sibling GTDB species, so the species-rank quotients are
`100/3` and `200/3`. -/
def gInput2 : List String :=
  [ "d__B|p__X|c__X|o__X|f__X|g__X|s__X1|t__SGB1\t2\t1.0\n",
    "d__B|p__X|c__X|o__X|f__X|g__X|s__X2|t__SGB2\t2\t2.0\n" ]

def gRes2 : Except String GRes := getGtdbProfile sgbMap2 gInput2

/-! ### The merged (multi-sample) variant of the repair pipeline -/

/-- State of the merged (multi-sample) variant of `fix_relab_mpa4`: vector
cells live in a store of list objects so that the binding
`taxa_levs[-j][gg] = taxa_levs[-i][ss]` (which aliases one list object
between a parent and its only child) and the later in-place mutation of
cells during normalization are modelled faithfully.  Rank tables bind a
lineage to a cell index. -/
structure MFixState where
  store : List (List ℚ)
  t0 : AList Nat
  t1 : AList Nat
  t2 : AList Nat
  t3 : AList Nat
  t4 : AList Nat
  t5 : AList Nat
  t6 : AList Nat
  t7 : AList Nat
  release : Option String
  uncl : Option (List ℚ)
  ncols : Nat
  out : List String
deriving DecidableEq

def initMFixState : MFixState :=
  ⟨[], [], [], [], [], [], [], [], [], none, none, 0, []⟩

/-- `taxa_levs[-1][line[0]] = [float(l) for l in line[1:]]` and
`ncols = len(line) - 1`: a fresh list object is allocated for the leaf. -/
def insertLeafMerged (st : MFixState) (fields : List String) : MFixState :=
  { st with
      store := st.store ++ [(fields.drop 1).map parseRat],
      t7 := alPut st.t7 (fields.getD 0 "") st.store.length,
      ncols := fields.length - 1 }

/-- One iteration of the streaming loop of `fix_relab_mpa4` with
`merged=True`. -/
def processLineFixMerged (octFixes : AList (String × String)) (st : MFixState)
    (line : String) : Except String MFixState :=
  if strStartsWith line "#mpa_v" then
    .ok { st with
            release := some (strDrop (strTrim line) 1),
            out := st.out ++
              [strTrim (joinSep '_' ((strSplit line '_').dropLast)) ++ "_202403\n"] }
  else if strStartsWith line "#" || strStartsWith line "clade_name" then
    .ok { st with out := st.out ++ [line] }
  else if strStartsWith line "UNCLASSIFIED" then
    .ok { st with
            out := st.out ++ [line],
            uncl := some (((strSplit line '\t').drop 1).map parseRat) }
  else if strContains line "t__" then
    match st.release with
    | some r =>
      if r = recognizedJun23 then
        .ok (insertLeafMerged st (strSplit (strTrim (jun23Fix line)) '\t'))
      else if r = recognizedOct22 then
        let fields := strSplit (strTrim line) '\t'
        let fields' :=
          match alGet octFixes (fields.getD 0 "") with
          | some nt => nt.1 :: fields.drop 1
          | none => fields
        .ok (insertLeafMerged st fields')
      else .error releaseErrMsg
    | none => .error releaseErrMsg
  else .ok st

def runLinesFixMerged (octFixes : AList (String × String)) :
    MFixState → List String → Except String MFixState
  | st, [] => .ok st
  | st, l :: ls =>
    match processLineFixMerged octFixes st l with
    | .ok st' => runLinesFixMerged octFixes st' ls
    | .error e => .error e

/-- One sweep of `assign_higher_taxonomic_levels` with `merged=True`: on a
miss the parent is bound to the child's cell object itself (aliasing); on a
hit `np.add` allocates a fresh cell holding the elementwise sum and the
parent key is rebound to it. -/
def mAggStepStore (store : List (List ℚ)) (child parent : AList Nat) :
    List (List ℚ) × AList Nat :=
  child.foldl
    (fun acc p =>
      let gg := parentKey p.1
      match alGet acc.2 gg with
      | none => (acc.1, acc.2 ++ [(gg, p.2)])
      | some cid =>
        (acc.1 ++ [List.zipWith (fun a b => a + b) (acc.1.getD cid [])
            (acc.1.getD p.2 [])],
         alPut acc.2 gg acc.1.length))
    (store, parent)

/-- `assign_higher_taxonomic_levels(taxa_levs, merged=True)`. -/
def assignHigherMerged (st : MFixState) : MFixState :=
  let r6 := mAggStepStore st.store st.t7 st.t6
  let r5 := mAggStepStore r6.1 r6.2 st.t5
  let r4 := mAggStepStore r5.1 r5.2 st.t4
  let r3 := mAggStepStore r4.1 r4.2 st.t3
  let r2 := mAggStepStore r3.1 r3.2 st.t2
  let r1 := mAggStepStore r2.1 r2.2 st.t1
  let r0 := mAggStepStore r1.1 r1.2 st.t0
  { st with store := r0.1, t0 := r0.2, t1 := r1.2, t2 := r2.2, t3 := r3.2,
            t4 := r4.2, t5 := r5.2, t6 := r6.2 }

/-- `sum_level[level]`: elementwise sum of a rank's current cell values,
starting from `[0] * ncols`. -/
def colSums (store : List (List ℚ)) (ncols : Nat) (tbl : AList Nat) : List ℚ :=
  tbl.foldl (fun acc p => List.zipWith (fun a b => a + b) acc (store.getD p.2 []))
    (List.replicate ncols 0)

/-- The inner `for n in range(...)` loop of the merged normalization:
`cell[n] = round(100 * cell[n] / (sum_level[level][n] + uncl[n]), 5)`. -/
def normCell (sums uncl cell : List ℚ) : List ℚ :=
  List.zipWith (fun v s => round5 (100 * v / s)) cell
    (List.zipWith (fun a b => a + b) sums uncl)

/-- Normalize one rank of a merged profile: each bound cell is replaced in
place in the store (so an alias of the same cell at a deeper rank observes
the mutation), and the row is emitted with the freshly written values. -/
def normLevelMerged (sums uncl : List ℚ) (store : List (List ℚ))
    (tbl : AList Nat) : List (List ℚ) × List (String × List ℚ) :=
  tbl.foldl
    (fun acc p =>
      let newCell := normCell sums uncl (acc.1.getD p.2 [])
      (acc.1.set p.2 newCell, acc.2 ++ [(p.1, newCell)]))
    (store, [])

/-- The merged normalization-and-write phase: `sum_level` is computed for
every rank first, from the post-aggregation store; the ranks are then
normalized and written shallowest first, threading the mutated store. -/
def mFixNormalize (st : MFixState) : List (List (String × List ℚ)) :=
  let u := match st.uncl with
    | none => List.replicate st.ncols 0
    | some l => l
  let s0 := colSums st.store st.ncols st.t0
  let s1 := colSums st.store st.ncols st.t1
  let s2 := colSums st.store st.ncols st.t2
  let s3 := colSums st.store st.ncols st.t3
  let s4 := colSums st.store st.ncols st.t4
  let s5 := colSums st.store st.ncols st.t5
  let s6 := colSums st.store st.ncols st.t6
  let s7 := colSums st.store st.ncols st.t7
  let n0 := normLevelMerged s0 u st.store st.t0
  let n1 := normLevelMerged s1 u n0.1 st.t1
  let n2 := normLevelMerged s2 u n1.1 st.t2
  let n3 := normLevelMerged s3 u n2.1 st.t3
  let n4 := normLevelMerged s4 u n3.1 st.t4
  let n5 := normLevelMerged s5 u n4.1 st.t5
  let n6 := normLevelMerged s6 u n5.1 st.t6
  let n7 := normLevelMerged s7 u n6.1 st.t7
  [n0.2, n1.2, n2.2, n3.2, n4.2, n5.2, n6.2, n7.2]

/-- Result of a successful merged run: the pass-through lines, the emitted
rows of each rank in write order (shallowest first), and the unclassified
vector used in the denominators. -/
structure MFixResult where
  outLines : List String
  levelRows : List (List (String × List ℚ))
  uncl : List ℚ
deriving DecidableEq

/-- `fix_relab_mpa4(input, output, merged=True)`. -/
def fix_relab_mpa4_merged (octFixes : AList (String × String))
    (lines : List String) : Except String MFixResult :=
  match runLinesFixMerged octFixes initMFixState lines with
  | .error e => .error e
  | .ok st =>
    let st' := assignHigherMerged st
    .ok ⟨st'.out, mFixNormalize st',
      match st'.uncl with
      | none => List.replicate st'.ncols 0
      | some l => l⟩

def emptyMFixResult : MFixResult := ⟨[], [], []⟩

def mOf (r : Except String MFixResult) : MFixResult :=
  match r with
  | .ok x => x
  | .error _ => emptyMFixResult

/-- A merged single-sample profile forming a single-child chain: one
species of abundance 30.0 with 10.0 unclassified, so every rank aliases the
same cell. -/
def mInput1 : List String :=
  [ "#mpa_vJun23_CHOCOPhlAnSGB_202307\n",
    "clade_name\tsample1\n",
    "UNCLASSIFIED\t10.0\n",
    "d__B|p__Firmicutes|c__C|o__O|f__F|g__G|s__S|t__SGB1\t30.0\n" ]

def mRes1 : Except String MFixResult := fix_relab_mpa4_merged [] mInput1

/-! ### Association-list lemmas -/

/-- Abundance stored under a key, `0` when absent. -/
def abOf (o : Option Entry) : ℚ :=
  (o.map Entry.ab).getD 0

/-- Value stored under a key, `0` when absent. -/
def qOf (o : Option ℚ) : ℚ :=
  o.getD 0

theorem alGet_append_single {α : Type} (l : AList α) (k g : String) (v : α) :
    alGet (l ++ [(k, v)]) g =
      match alGet l g with
      | some w => some w
      | none => if k = g then some v else none := by
  induction l with
  | nil =>
    by_cases h : k = g
    · subst h
      simp [alGet, List.find?]
    · have hb : (k == g) = false := by simpa using h
      simp [alGet, List.find?, hb, h]
  | cons p r ih =>
    by_cases h : p.1 = g
    · simp [alGet, List.find?, h]
    · have hb : (p.1 == g) = false := by simpa using h
      simpa [alGet, List.find?, hb] using ih

theorem alGet_modify {α : Type} (f : α → α) (l : AList α) (k g : String) :
    alGet (alModify f l k) g =
      if k = g then (alGet l g).map f else alGet l g := by
  induction l with
  | nil => by_cases h : k = g <;> simp [alGet, alModify, h]
  | cons p r ih =>
    rcases p with ⟨k', v'⟩
    by_cases h1 : k' = k
    · subst h1
      by_cases h2 : k' = g
      · subst h2
        simp [alGet, alModify, List.find?]
      · have hb : (k' == g) = false := by simpa using h2
        simp [alGet, alModify, List.find?, hb, h2]
    · have hb1 : (k' == k) = false := by simpa using h1
      by_cases h2 : k' = g
      · subst h2
        have hb2 : ¬ k = k' := fun hc => h1 hc.symm
        simp [alGet, alModify, List.find?, hb1, hb2]
      · have hb2 : (k' == g) = false := by simpa using h2
        simp only [alModify, hb1, Bool.false_eq_true, if_false]
        simpa [alGet, List.find?, hb2] using ih

theorem alGet_alPut_self {α : Type} (l : AList α) (k : String) (v : α) :
    alGet (alPut l k v) k = some v := by
  induction l with
  | nil => simp [alGet, alPut, List.find?]
  | cons p r ih =>
    by_cases h : p.1 == k
    · simp [alGet, alPut, h, List.find?]
    · simp [alGet, alPut, h, List.find?] at ih ⊢
      exact ih

theorem alAdd_get (t : AList ℚ) (k : String) (v : ℚ) (g : String) :
    qOf (alGet (alAdd t k v) g) =
      qOf (alGet t g) + (if k = g then v else 0) := by
  unfold alAdd
  cases h : alGet t k with
  | none =>
    rw [alGet_append_single]
    by_cases hg : k = g
    · subst hg
      simp [h, qOf]
    · have : ¬ (k == g) = true := by simpa using hg
      cases h2 : alGet t g <;> simp [this, hg, qOf, h2]
  | some w =>
    rw [alGet_modify]
    by_cases hg : k = g
    · subst hg
      simp [h, qOf]
    · have : ¬ (k == g) = true := by simpa using hg
      simp [this, hg]

/-! ### Parent totals under one aggregation sweep -/

/-- Total abundance of the children of `g` in a rank table (non-merged
repair pipeline). -/
def childSum (child : AList Entry) (g : String) : ℚ :=
  ((child.filter (fun p => parentKey p.1 == g)).map (fun p => p.2.ab)).sum

/-- Total abundance of the children of `g` in a rank table (conversion
pipeline). -/
def gChildSum (child : AList ℚ) (g : String) : ℚ :=
  ((child.filter (fun p => sgbParentKey p.1 == g)).map (fun p => p.2)).sum

theorem aggStep_one_get (parent : AList Entry) (p : String × Entry) (g : String) :
    abOf (alGet
      (match alGet parent (parentKey p.1) with
        | none => parent ++ [(parentKey p.1, ⟨parentKey p.2.name, p.2.ab, ""⟩)]
        | some _ =>
          alModify (fun e => ⟨e.name, e.ab + p.2.ab, e.extra⟩) parent (parentKey p.1)) g)
      = abOf (alGet parent g) + (if parentKey p.1 = g then p.2.ab else 0) := by
  by_cases hp : parentKey p.1 = g
  · subst hp
    cases h : alGet parent (parentKey p.1) with
    | none =>
      rw [alGet_append_single]
      simp [h, abOf]
    | some w =>
      rw [alGet_modify]
      simp [h, abOf]
  · cases h : alGet parent (parentKey p.1) with
    | none =>
      rw [alGet_append_single]
      cases h2 : alGet parent g <;> simp [hp, abOf, h2]
    | some w =>
      rw [alGet_modify]
      simp [hp]

/-- After one sweep of `assign_higher_taxonomic_levels`, the abundance at
any parent key equals the abundance already present plus the sum of the
abundances of exactly the children whose truncated lineage is that key:
each child is counted once, into one parent, and existing parents are
accumulated into, never overwritten. -/
theorem aggStep_total (child parent : AList Entry) (g : String) :
    abOf (alGet (aggStep child parent) g) =
      abOf (alGet parent g) + childSum child g := by
  induction child generalizing parent with
  | nil => simp [aggStep, childSum]
  | cons p rest ih =>
    rw [aggStep, List.foldl_cons, ← aggStep]
    rw [ih]
    rw [aggStep_one_get parent p g]
    have : childSum (p :: rest) g =
        (if parentKey p.1 = g then p.2.ab else 0) + childSum rest g := by
      by_cases hg : parentKey p.1 = g
      · simp [childSum, List.filter, hg]
      · have hb : (parentKey p.1 == g) = false := by simpa using hg
        simp [childSum, List.filter, hg, hb]
    rw [this]
    ring

/-- The conversion pipeline's analogue of `aggStep_total`. -/
theorem gAggStep_total (child parent : AList ℚ) (g : String) :
    qOf (alGet (gAggStep child parent) g) =
      qOf (alGet parent g) + gChildSum child g := by
  induction child generalizing parent with
  | nil => simp [gAggStep, gChildSum]
  | cons p rest ih =>
    rw [gAggStep, List.foldl_cons, ← gAggStep]
    rw [ih]
    rw [alAdd_get parent (sgbParentKey p.1) p.2 g]
    have : gChildSum (p :: rest) g =
        (if sgbParentKey p.1 = g then p.2 else 0) + gChildSum rest g := by
      by_cases hg : sgbParentKey p.1 = g
      · simp [gChildSum, List.filter, hg]
      · have hb : (sgbParentKey p.1 == g) = false := by simpa using hg
        simp [gChildSum, List.filter, hg, hb]
    rw [this]
    ring

/-! ### Rounding bounds and per-rank conservation -/

theorem roundHalfEven_dist (q : ℚ) : |(roundHalfEven q : ℚ) - q| ≤ 1/2 := by
  have h1 : (⌊q⌋ : ℚ) ≤ q := Int.floor_le q
  have h2 : q < ⌊q⌋ + 1 := Int.lt_floor_add_one q
  unfold roundHalfEven
  by_cases hr : q - ⌊q⌋ < 1/2
  · rw [if_pos hr, abs_le]
    constructor <;> linarith
  · rw [if_neg hr]
    by_cases hr2 : (1:ℚ)/2 < q - ⌊q⌋
    · rw [if_pos hr2, abs_le]
      constructor <;> push_cast <;> linarith
    · rw [if_neg hr2]
      have he : q - ⌊q⌋ = 1/2 := le_antisymm (not_lt.mp hr2) (not_lt.mp hr)
      by_cases hp : (⌊q⌋ : ℤ) % 2 = 0
      · rw [if_pos hp, abs_le]
        constructor <;> linarith
      · rw [if_neg hp, abs_le]
        constructor <;> push_cast <;> linarith

theorem round5_dist (q : ℚ) : |round5 q - q| ≤ 1/200000 := by
  have h := roundHalfEven_dist (q * 100000)
  have he : round5 q - q = ((roundHalfEven (q * 100000) : ℚ) - q * 100000) / 100000 := by
    unfold round5
    ring
  rw [he, abs_div]
  have h5 : |(100000 : ℚ)| = 100000 := by norm_num
  rw [h5]
  calc |(roundHalfEven (q * 100000) : ℚ) - q * 100000| / 100000
      ≤ (1/2) / 100000 := by
        apply div_le_div_of_nonneg_right h
        norm_num
    _ = 1/200000 := by norm_num

theorem sum_map_round5_dist (l : List ℚ) :
    |(l.map round5).sum - l.sum| ≤ l.length * (1/200000) := by
  induction l with
  | nil => simp
  | cons x xs ih =>
    have hd := round5_dist x
    calc |((x :: xs).map round5).sum - (x :: xs).sum|
        = |(round5 x - x) + ((xs.map round5).sum - xs.sum)| := by
          simp [List.map_cons, List.sum_cons]
          ring_nf
      _ ≤ |round5 x - x| + |(xs.map round5).sum - xs.sum| := abs_add _ _
      _ ≤ 1/200000 + xs.length * (1/200000) := add_le_add hd ih
      _ = (x :: xs).length * (1/200000) := by
          simp [List.length_cons]
          ring

theorem sum_map_scale (l : List ℚ) (c T : ℚ) :
    (l.map (fun x => c * x / T)).sum = c * l.sum / T := by
  induction l with
  | nil => simp
  | cons x xs ih =>
    simp only [List.map_cons, List.sum_cons, ih]
    ring

/-- The sum of the values of one renormalized rank of the repair pipeline
differs from `100 - 100 * u / total` only by the rounding error, at most
`5·10⁻⁶` per table entry.  In particular the renormalized rank together
with the renormalized unclassified percentage reconstitutes 100. -/
theorem normLevel_conservation (u : ℚ) (t : AList Entry)
    (h : sumVals t + u ≠ 0) :
    |sumVals (normLevel u t) + 100 * u / (sumVals t + u) - 100| ≤
      t.length * (1/200000) := by
  have h1 : sumVals (normLevel u t) =
      ((t.map (fun p => 100 * p.2.ab / (sumVals t + u))).map round5).sum := by
    simp only [sumVals, normLevel, List.map_map]
    rfl
  have h2 : (t.map (fun p => 100 * p.2.ab / (sumVals t + u))).sum =
      100 * sumVals t / (sumVals t + u) := by
    have := sum_map_scale (t.map (fun p => p.2.ab)) 100 (sumVals t + u)
    simpa [sumVals, List.map_map, Function.comp] using this
  have h3 : 100 * sumVals t / (sumVals t + u) + 100 * u / (sumVals t + u) - 100 = 0 := by
    field_simp
    ring
  have h4 := sum_map_round5_dist (t.map (fun p => 100 * p.2.ab / (sumVals t + u)))
  rw [h2] at h4
  have h5 : sumVals (normLevel u t) + 100 * u / (sumVals t + u) - 100 =
      sumVals (normLevel u t) - 100 * sumVals t / (sumVals t + u) := by
    linarith
  rw [h5, h1]
  simpa using h4

/-- Each rank of the conversion pipeline sums to exactly 100 on its own:
the unclassified value takes no part in the denominator. -/
theorem sum_map_scale_right (l : List ℚ) (c T : ℚ) :
    (l.map (fun x => x * c / T)).sum = l.sum * c / T := by
  induction l with
  | nil => simp
  | cons x xs ih =>
    simp only [List.map_cons, List.sum_cons, ih]
    ring

theorem gNorm_sum (t : AList ℚ) (h : gSum t ≠ 0) :
    gSum (gNorm t) = 100 := by
  have h1 : gSum (gNorm t) =
      ((t.map (fun p => p.2)).map (fun x => x * 100 / gSum t)).sum := by
    simp only [gSum, gNorm, List.map_map]
    rfl
  rw [h1, sum_map_scale_right]
  rw [← gSum]
  field_simp

/-- Per-column conservation of one application of the merged normalization
formula: if a rank's recorded column sum matches the current cell values
summed in that column (as it does for the shallowest rank, normalized
before any in-place mutation), then the rounded column values plus the
renormalized unclassified percentage reconstitute 100 up to `5·10⁻⁶` per
row.  Deeper aliased ranks are normalized from already-mutated values, and
for them this fails (see the C1 counterexample). -/
theorem col_conservation (u : ℚ) (l : List ℚ) (h : l.sum + u ≠ 0) :
    |(l.map (fun v => round5 (100 * v / (l.sum + u)))).sum +
        100 * u / (l.sum + u) - 100| ≤ l.length * (1/200000) := by
  have h2 : (l.map (fun v => 100 * v / (l.sum + u))).sum =
      100 * l.sum / (l.sum + u) := sum_map_scale l 100 (l.sum + u)
  have h4 := sum_map_round5_dist (l.map (fun v => 100 * v / (l.sum + u)))
  rw [h2] at h4
  have h3 : 100 * l.sum / (l.sum + u) + 100 * u / (l.sum + u) - 100 = 0 := by
    field_simp
    ring
  have h5 : (l.map (fun v => round5 (100 * v / (l.sum + u)))).sum +
      100 * u / (l.sum + u) - 100 =
      (l.map (fun v => round5 (100 * v / (l.sum + u)))).sum -
        100 * l.sum / (l.sum + u) := by
    linarith
  rw [h5]
  have h6 : l.map (fun v => round5 (100 * v / (l.sum + u))) =
      (l.map (fun v => 100 * v / (l.sum + u))).map round5 := by
    rw [List.map_map]
    rfl
  rw [h6]
  simpa using h4

/-! ### Split/join/replace lemmas for the parent-key computations -/

theorem splitChar_ne_nil (sep : Char) (l : List Char) : splitChar sep l ≠ [] := by
  induction l with
  | nil => simp [splitChar]
  | cons c cs ih =>
    simp only [splitChar]
    by_cases h : c = sep
    · simp [h]
    · simp only [h, if_false]
      cases hs : splitChar sep cs with
      | nil => simp
      | cons a t => simp

theorem joinLists_cons₂ (sep : Char) (a h : List Char) (t : List (List Char)) :
    joinLists sep (a :: h :: t) = a ++ sep :: joinLists sep (h :: t) := by
  simp [joinLists, List.intersperse]

theorem join_splitChar (sep : Char) (l : List Char) :
    joinLists sep (splitChar sep l) = l := by
  induction l with
  | nil => simp [splitChar, joinLists]
  | cons c cs ih =>
    simp only [splitChar]
    by_cases h : c = sep
    · subst h
      rw [if_pos rfl]
      cases hs : splitChar c cs with
      | nil => exact absurd hs (splitChar_ne_nil c cs)
      | cons a t =>
        rw [hs] at ih
        rw [joinLists_cons₂]
        simp [ih]
    · simp only [h, if_false]
      cases hs : splitChar sep cs with
      | nil => exact absurd hs (splitChar_ne_nil sep cs)
      | cons a t =>
        rw [hs] at ih
        cases t with
        | nil => simp [joinLists] at ih ⊢; simp [ih]
        | cons b t' =>
          rw [joinLists_cons₂] at ih ⊢
          simp [ih]

theorem splitChar_append (sep : Char) (xs ys : List Char) :
    splitChar sep (xs ++ sep :: ys) = splitChar sep xs ++ splitChar sep ys := by
  induction xs with
  | nil => simp [splitChar]
  | cons c cs ih =>
    simp only [List.cons_append, splitChar, List.append_eq]
    rw [ih]
    by_cases h : c = sep
    · simp [h]
    · simp only [h, if_false]
      cases hs : splitChar sep cs with
      | nil => exact absurd hs (splitChar_ne_nil sep cs)
      | cons a t => simp

theorem splitChar_no_sep (sep : Char) (l : List Char) (h : sep ∉ l) :
    splitChar sep l = [l] := by
  induction l with
  | nil => simp [splitChar]
  | cons c cs ih =>
    have hc : c ≠ sep := fun hc => h (hc ▸ List.mem_cons_self c cs)
    have hcs : sep ∉ cs := fun hm => h (List.mem_cons_of_mem c hm)
    simp only [splitChar, hc, if_false]
    rw [ih hcs]

theorem replFuel_nil (pat rep : List Char) (n : Nat) :
    replFuel pat rep n [] = [] := by
  cases n <;> rfl

/-- If `pat` occurs in `p ++ pat` only as the final suffix, then deleting
every occurrence of `pat` leaves exactly `p`. -/
theorem replFuel_suffix (pat : List Char) (hne : pat ≠ []) :
    ∀ (p : List Char) (fuel : Nat),
      (∀ i < p.length, ¬ pat.isPrefixOf ((p ++ pat).drop i) = true) →
      (p ++ pat).length ≤ fuel →
      replFuel pat [] fuel (p ++ pat) = p := by
  intro p
  induction p with
  | nil =>
    intro fuel _ hfuel
    cases pat with
    | nil => exact absurd rfl hne
    | cons q qs =>
      simp only [List.nil_append] at hfuel ⊢
      cases fuel with
      | zero => simp at hfuel
      | succ n =>
        have hpre : (q :: qs).isPrefixOf (q :: qs) = true := by
          simp [List.isPrefixOf_iff_prefix]
        simp only [replFuel, hne, hpre, and_true, ne_eq, not_false_iff, if_pos,
          true_and, if_true]
        rw [List.drop_length]
        simpa using replFuel_nil (q :: qs) [] n
  | cons a p' ih =>
    intro fuel hocc hfuel
    have hlen : (a :: p' ++ pat).length = (p' ++ pat).length + 1 := by simp
    cases fuel with
    | zero =>
      rw [List.cons_append] at hfuel
      simp at hfuel
    | succ n =>
      have h0 := hocc 0 (by simp)
      simp only [List.drop_zero] at h0
      rw [List.cons_append]
      simp only [replFuel]
      rw [List.cons_append] at h0
      have hcond : ¬ (pat ≠ [] ∧ pat.isPrefixOf (a :: (p' ++ pat)) = true) := by
        intro hc
        exact h0 hc.2
      rw [if_neg hcond]
      congr 1
      apply ih
      · intro i hi
        have := hocc (i + 1) (by simpa using Nat.succ_lt_succ hi)
        simpa using this
      · rw [List.cons_append] at hfuel
        simpa using Nat.le_of_succ_le_succ hfuel

theorem toList_mk (l : List Char) : (String.mk l).toList = l := rfl

theorem strMk_toList (s : String) : String.mk s.toList = s := by
  cases s
  rfl

theorem strToList_append (a b : String) : (a ++ b).toList = a.toList ++ b.toList := rfl

/-- In the repair pipeline, dropping the final `|`-segment of
`pfx ++ "|" ++ lst` (where `lst` is a single segment) recovers `pfx`:
`'|'.join(ss.split('|')[:-1])` is exactly "remove the last segment". -/
theorem parentKey_append (pfx lst : String) (h : '|' ∉ lst.toList) :
    parentKey (pfx ++ "|" ++ lst) = pfx := by
  unfold parentKey strSplit joinSep
  have htl : (pfx ++ "|" ++ lst).toList = pfx.toList ++ '|' :: lst.toList := by
    rw [strToList_append, strToList_append, List.append_assoc]
    rfl
  rw [htl, splitChar_append, splitChar_no_sep '|' lst.toList h]
  rw [List.map_append]
  simp only [List.map_cons, List.map_nil]
  rw [List.dropLast_concat]
  rw [List.map_map]
  have hmap : (List.map (String.toList ∘ String.mk) (splitChar '|' pfx.toList)) =
      splitChar '|' pfx.toList := by
    apply List.map_id''
    intro l
    rfl
  rw [hmap, join_splitChar]
  exact strMk_toList pfx

/-- In the conversion pipeline, the parent key of `pfx ++ ";" ++ lst`
equals `pfx` provided `';' ++ lst` occurs in the lineage only as its final
suffix (the `str.replace` call deletes every occurrence). -/
theorem sgbParentKey_append (pfx lst : String) (h : ';' ∉ lst.toList)
    (hocc : ∀ i < pfx.toList.length,
      ¬ ((';' :: lst.toList).isPrefixOf
          ((pfx.toList ++ ';' :: lst.toList).drop i)) = true) :
    sgbParentKey (pfx ++ ";" ++ lst) = pfx := by
  unfold sgbParentKey
  have htl : (pfx ++ ";" ++ lst).toList = pfx.toList ++ ';' :: lst.toList := by
    rw [strToList_append, strToList_append, List.append_assoc]
    rfl
  have hsplit : strSplit (pfx ++ ";" ++ lst) ';' =
      (splitChar ';' pfx.toList).map String.mk ++ [lst] := by
    unfold strSplit
    rw [htl, splitChar_append, splitChar_no_sep ';' lst.toList h]
    rw [List.map_append]
    simp only [List.map_cons, List.map_nil]
    rw [strMk_toList]
  have hlast : (strSplit (pfx ++ ";" ++ lst) ';').getLastD "" = lst := by
    rw [hsplit]
    simp
  rw [hlast]
  unfold pythonReplace
  have hpat : (";" ++ lst).toList = ';' :: lst.toList := rfl
  rw [hpat, htl]
  have hemp : "".toList = ([] : List Char) := rfl
  rw [hemp]
  rw [replFuel_suffix (';' :: lst.toList) (by simp) pfx.toList
    (pfx.toList ++ ';' :: lst.toList).length hocc le_rfl]
  exact strMk_toList pfx

/-! ### Rounded values are multiples of `10⁻⁵` -/

theorem round5_den (q : ℚ) : (round5 q * 100000).den = 1 := by
  have h : round5 q * 100000 = ((roundHalfEven (q * 100000) : ℤ) : ℚ) := by
    unfold round5
    field_simp
  rw [h]
  exact Rat.den_intCast _

/-- Every abundance written by the repair pipeline's renormalization is an
integer multiple of `10⁻⁵`. -/
theorem normLevel_multiple (u : ℚ) (t : AList Entry) (p : String × Entry)
    (hp : p ∈ normLevel u t) : (p.2.ab * 100000).den = 1 := by
  unfold normLevel at hp
  obtain ⟨q, _, rfl⟩ := List.mem_map.mp hp
  exact round5_den _

theorem zipRound_multiple :
    ∀ (cell totals : List ℚ) (v : ℚ),
      v ∈ List.zipWith (fun a s => round5 (100 * a / s)) cell totals →
      (v * 100000).den = 1 := by
  intro cell
  induction cell with
  | nil =>
    intro totals v hv
    simp at hv
  | cons c cs ih =>
    intro totals v hv
    cases totals with
    | nil => simp at hv
    | cons s ss =>
      simp only [List.zipWith_cons_cons, List.mem_cons] at hv
      rcases hv with rfl | hv
      · exact round5_den _
      · exact ih ss v hv

/-- Every column value written by the merged normalization step is an
integer multiple of `10⁻⁵`. -/
theorem normCell_multiple (sums uncl cell : List ℚ) (v : ℚ)
    (hv : v ∈ normCell sums uncl cell) : (v * 100000).den = 1 := by
  unfold normCell at hv
  exact zipRound_multiple cell (List.zipWith (fun a b => a + b) sums uncl) v hv

/-! ### Prefix facts for line classification -/

theorem strStartsWith_trans (l p₁ p₂ : String)
    (h : strStartsWith l p₁ = true) (hp : p₂.toList <+: p₁.toList) :
    strStartsWith l p₂ = true := by
  unfold strStartsWith at h ⊢
  rw [List.isPrefixOf_iff_prefix] at h ⊢
  exact hp.trans h

theorem not_hash_not_mpa (l : String) (h : strStartsWith l "#" = false) :
    strStartsWith l "#mpa_v" = false := by
  by_contra hc
  have := strStartsWith_trans l "#mpa_v" "#" (by simpa using hc) (by decide)
  rw [this] at h
  cases h

theorem not_hash_not_mpa' (l : String) (h : strStartsWith l "#" = false) :
    strStartsWith l "#mpa_" = false := by
  by_contra hc
  have := strStartsWith_trans l "#mpa_" "#" (by simpa using hc) (by decide)
  rw [this] at h
  cases h

/-! ### Fatal abort on an unrecognized release -/

/-- A line reaching the species-data branch of the streaming loop: not a
header or comment, not the column header, not the unclassified row, and
containing the `t__` marker. -/
def isSpeciesDataLine (l : String) : Bool :=
  !(strStartsWith l "#") && !(strStartsWith l "clade_name") &&
    !(strStartsWith l "UNCLASSIFIED") && strContains l "t__"

/-- The release recorded so far is absent or unrecognized. -/
def badReleaseSt (st : FixState) : Prop :=
  st.release = none ∨
    ∃ s, st.release = some s ∧ s ≠ recognizedJun23 ∧ s ≠ recognizedOct22

theorem processLineFix_bad (octF : AList (String × String)) (st : FixState)
    (l : String) (hinv : badReleaseSt st)
    (hhdr : strStartsWith l "#mpa_v" = true →
      strDrop (strTrim l) 1 ≠ recognizedJun23 ∧
      strDrop (strTrim l) 1 ≠ recognizedOct22) :
    (isSpeciesDataLine l = true → ∃ e, processLineFix octF st l = .error e) ∧
    (∀ st', processLineFix octF st l = .ok st' → badReleaseSt st') := by
  by_cases h1 : strStartsWith l "#mpa_v" = true
  · constructor
    · intro hspec
      exfalso
      have hh : strStartsWith l "#" = true :=
        strStartsWith_trans l "#mpa_v" "#" h1 (by decide)
      simp [isSpeciesDataLine, hh] at hspec
    · intro st' hok
      simp only [processLineFix, h1, if_true] at hok
      cases hok
      right
      exact ⟨_, rfl, (hhdr h1).1, (hhdr h1).2⟩
  · by_cases h2 : (strStartsWith l "#" || strStartsWith l "clade_name") = true
    · constructor
      · intro hspec
        exfalso
        rcases Bool.or_eq_true_iff.mp h2 with h | h <;>
          simp [isSpeciesDataLine, h] at hspec
      · intro st' hok
        simp only [processLineFix, h1, Bool.false_eq_true, if_false, h2,
          if_true] at hok
        cases hok
        exact hinv
    · by_cases h3 : strStartsWith l "UNCLASSIFIED" = true
      · constructor
        · intro hspec
          exfalso
          simp [isSpeciesDataLine, h3] at hspec
        · intro st' hok
          simp only [processLineFix, h1, Bool.false_eq_true, if_false, h2, h3,
            if_true] at hok
          cases hok
          exact hinv
      · by_cases h4 : strContains l "t__" = true
        · have herr : processLineFix octF st l = .error releaseErrMsg := by
            rcases hinv with hn | ⟨s, hs, hJ, hO⟩
            · simp [processLineFix, h1, h2, h3, h4, hn]
            · simp [processLineFix, h1, h2, h3, h4, hs, hJ, hO]
          constructor
          · intro _
            exact ⟨releaseErrMsg, herr⟩
          · intro st' hok
            rw [herr] at hok
            cases hok
        · constructor
          · intro hspec
            exfalso
            simp [isSpeciesDataLine, h4] at hspec
          · intro st' hok
            simp only [processLineFix, h1, Bool.false_eq_true, if_false, h2,
              h3, h4] at hok
            cases hok
            exact hinv

theorem runLinesFix_bad (octF : AList (String × String)) :
    ∀ (lines : List String),
      (∀ l ∈ lines, strStartsWith l "#mpa_v" = true →
        strDrop (strTrim l) 1 ≠ recognizedJun23 ∧
        strDrop (strTrim l) 1 ≠ recognizedOct22) →
      ∀ st, badReleaseSt st →
      (∃ l ∈ lines, isSpeciesDataLine l = true) →
      isOkE (runLinesFix octF st lines) = false := by
  intro lines
  induction lines with
  | nil =>
    intro _ st _ hex
    simp at hex
  | cons l ls ih =>
    intro hhdr st hinv hex
    have hstep := processLineFix_bad octF st l hinv (hhdr l (List.mem_cons_self l ls))
    cases hpl : processLineFix octF st l with
    | error e =>
      simp [runLinesFix, hpl, isOkE]
    | ok st' =>
      have hlnot : ¬ isSpeciesDataLine l = true := by
        intro hl
        obtain ⟨e, he⟩ := hstep.1 hl
        rw [he] at hpl
        cases hpl
      have hex' : ∃ x ∈ ls, isSpeciesDataLine x = true := by
        rcases hex with ⟨x, hx, hxs⟩
        rcases List.mem_cons.mp hx with rfl | hx'
        · exact absurd hxs hlnot
        · exact ⟨x, hx', hxs⟩
      have hrun : runLinesFix octF st (l :: ls) = runLinesFix octF st' ls := by
        simp [runLinesFix, hpl]
      rw [hrun]
      exact ih (fun x hx => hhdr x (List.mem_cons_of_mem l hx)) st'
        (hstep.2 st' hpl) hex'

theorem fix_relab_isOk (octF : AList (String × String)) (lines : List String) :
    isOkE (fix_relab_mpa4 octF lines) = isOkE (runLinesFix octF initFixState lines) := by
  unfold fix_relab_mpa4
  cases h : runLinesFix octF initFixState lines <;> simp [isOkE]

/-! ## Claim theorems -/

set_option maxRecDepth 40000

/-- C1, counterexample: the claimed conservation fails in both remaining
scopes.  In the conversion pipeline the unclassified fraction is not part
of any rank's denominator: on a concrete run with one species of abundance
95 and unclassified 5, the domain-rank output values sum to 100 on their
own, so adding the unclassified percentage gives 105.  In the merged repair
pipeline, on a single-chain profile with per-column value 30 and
unclassified 10, every rank aliases one cell and the in-place
normalization walks shallowest-first, so the level-1 column sum plus the
renormalized unclassified percentage is `187.5 + 25 = 212.5`.  Both miss
100 by far more than the claimed `1e-4` tolerance. -/
theorem C1_counterexample :
    (gSum ((gOf gRes1).lvls.getD 0 []) + (gOf gRes1).uncl = 105 ∧
      ¬ (|(105 : ℚ) - 100| ≤ 1/10000)) ∧
    ((((mOf mRes1).levelRows.getD 1 []).map (fun r => r.2.getD 0 0)).sum +
        100 * 10 / (30 + 10) = 425/2 ∧
      ¬ (|(425/2 : ℚ) - 100| ≤ 1/10000)) := by
  decide

/-- C1, amended: in the profile-repair pipeline every rank's denominator is
the rank sum plus the unclassified fraction, and one application of the
normalization formula to a rank whose recorded sums match its current
values — per column in merged mode, and always for non-merged rank
tables — reconstitutes 100 together with the renormalized unclassified
percentage, up to the rounding error of at most `5·10⁻⁶` per entry.  In
merged mode only the shallowest rank is normalized from unmutated cells
(on the concrete aliased run its column conserves 100 exactly);
deeper aliased ranks are renormalized from already-normalized values and
violate conservation (see the counterexample).  In the SGB-to-GTDB
pipeline the denominator is the rank sum alone, so the output values of a
rank sum to exactly 100 by themselves, without the unclassified
percentage. -/
theorem C1_conservation_amended :
    (∀ (u : ℚ) (l : List ℚ), l.sum + u ≠ 0 →
      |(l.map (fun v => round5 (100 * v / (l.sum + u)))).sum +
          100 * u / (l.sum + u) - 100| ≤ l.length * (1/200000)) ∧
    (∀ (u : ℚ) (t : AList Entry), sumVals t + u ≠ 0 →
      |sumVals (normLevel u t) + 100 * u / (sumVals t + u) - 100| ≤
        t.length * (1/200000)) ∧
    ((((mOf mRes1).levelRows.getD 0 []).map (fun r => r.2.getD 0 0)).sum +
        100 * 10 / (30 + 10) = 100) ∧
    (∀ t : AList ℚ, gSum t ≠ 0 → gSum (gNorm t) = 100) :=
  ⟨col_conservation, normLevel_conservation, by decide, gNorm_sum⟩

/-- C1, witness: the amended conservation evaluated on a concrete merged
column, a concrete non-merged rank table, and a concrete conversion-rank
table. -/
theorem C1_witness :
    |([(30 : ℚ)].map (fun v => round5 (100 * v / ([(30 : ℚ)].sum + 10)))).sum +
        100 * 10 / ([(30 : ℚ)].sum + 10) - 100| ≤
      ([(30 : ℚ)] : List ℚ).length * (1/200000) ∧
    |sumVals (normLevel 5 [("d__Bacteria", ⟨"2", 95, ""⟩)]) +
        100 * 5 / (sumVals [("d__Bacteria", ⟨"2", 95, ""⟩)] + 5) - 100| ≤
      ([("d__Bacteria", (⟨"2", 95, ""⟩ : Entry))] : AList Entry).length * (1/200000) ∧
    gSum (gNorm [("a", 40), ("b", 60)]) = 100 :=
  ⟨C1_conservation_amended.1 10 [30] (by decide),
   C1_conservation_amended.2.1 5 [("d__Bacteria", ⟨"2", 95, ""⟩)] (by decide),
   C1_conservation_amended.2.2.2 [("a", 40), ("b", 60)] (by decide)⟩

/-- C2, counterexample: on the spec's end-to-end scenario (95.0 classified,
5.0 unclassified) the domain-rank output value is `95.0`, not the claimed
`100.0`: the denominator is `95 + 5 = 100`, so `round(100·95/100, 5) = 95`. -/
theorem C2_counterexample :
    abOf (alGet (((fixOf fixRes1).finalLevels).getD 0 []) "d__Bacteria") = 95 ∧
    (95 : ℚ) ≠ 100 := by
  decide

/-- C2, amended: on the end-to-end scenario the output header becomes
`#mpa_vJun23_CHOCOPhlAnSGB_202403`, the unclassified text line is written
through verbatim, the phylum segment is rewritten to `p__Firmicutes`
(no `p__Bacillota` key survives), and the domain-rank row `d__Bacteria`
carries the value `95.0` (since `95/(95+5) = 0.95`). -/
theorem C2_end_to_end_amended :
    (fixOf fixRes1).outLines.head? = some "#mpa_vJun23_CHOCOPhlAnSGB_202403\n" ∧
    "UNCLASSIFIED\t-1\t5.0\n" ∈ (fixOf fixRes1).outLines ∧
    alGet (((fixOf fixRes1).finalLevels).getD 1 []) "d__Bacteria|p__Firmicutes" =
      some ⟨"2|1239", 95, ""⟩ ∧
    (∀ p ∈ ((fixOf fixRes1).finalLevels).getD 1 [],
      strContains p.1 "p__Bacillota" = false) ∧
    alGet (((fixOf fixRes1).finalLevels).getD 0 []) "d__Bacteria" =
      some ⟨"2", 95, ""⟩ := by
  decide

/-- C3: one aggregation sweep sums each child exactly once into exactly the
parent obtained from its lineage, accumulating into (never overwriting) an
existing parent value, in both pipelines; in particular the synthetic
two-leaf profile `A|B|x = 10`, `A|B|y = 20` aggregates to `A|B = 30`, both
for scalar cells and elementwise for vector cells. -/
theorem C3_no_double_counting :
    (∀ (child parent : AList Entry) (g : String),
      abOf (alGet (aggStep child parent) g) =
        abOf (alGet parent g) + childSum child g) ∧
    (∀ (child parent : AList ℚ) (g : String),
      qOf (alGet (gAggStep child parent) g) =
        qOf (alGet parent g) + gChildSum child g) ∧
    abOf (alGet (aggStep
      [("A|B|x", ⟨"1|2|3", 10, ""⟩), ("A|B|y", ⟨"1|2|4", 20, ""⟩)] []) "A|B") = 30 ∧
    alGet (mAggStep [("A|B|x", [10, 1]), ("A|B|y", [20, 2])] []) "A|B" =
      some [30, 3] :=
  ⟨aggStep_total, gAggStep_total, by decide, by decide⟩

/-- C4, counterexample: the conversion pipeline computes the parent key
with `str.replace`, which deletes every occurrence of `';' + last segment`;
on the lineage `x;y;y`, whose inner segment equals its last segment, it
produces `x` instead of the immediate parent `x;y`. -/
theorem C4_counterexample :
    sgbParentKey "x;y;y" = "x" ∧
    joinSep ';' ((strSplit "x;y;y" ';').dropLast) = "x;y" ∧
    sgbParentKey "x;y;y" ≠ joinSep ';' ((strSplit "x;y;y" ';').dropLast) := by
  decide

/-- C4, amended: in the profile-repair pipeline the computed parent key is
always exactly the lineage with its last `|`-segment removed; in the
SGB-to-GTDB pipeline the computed parent key equals the lineage with its
last `;`-segment removed whenever `';' + last segment` occurs in the
lineage only as its final suffix — but not in general (see the
counterexample with a repeated segment). -/
theorem C4_parent_truncation_amended :
    (∀ (pfx lst : String), '|' ∉ lst.toList →
      parentKey (pfx ++ "|" ++ lst) = pfx) ∧
    (∀ (pfx lst : String), ';' ∉ lst.toList →
      (∀ i < pfx.toList.length,
        ¬ ((';' :: lst.toList).isPrefixOf
            ((pfx.toList ++ ';' :: lst.toList).drop i)) = true) →
      sgbParentKey (pfx ++ ";" ++ lst) = pfx) :=
  ⟨parentKey_append, sgbParentKey_append⟩

/-- C4, witness: both truncations evaluated on a concrete two-segment
prefix and a fresh last segment. -/
theorem C4_witness :
    parentKey ("d__A|p__B" ++ "|" ++ "s__C") = "d__A|p__B" ∧
    sgbParentKey ("d__A;p__B" ++ ";" ++ "s__C") = "d__A;p__B" :=
  ⟨C4_parent_truncation_amended.1 "d__A|p__B" "s__C" (by decide),
   C4_parent_truncation_amended.2 "d__A;p__B" "s__C" (by decide) (by decide)⟩

/-- C5, counterexample: the conversion pipeline does not emit its rows
deepest rank first: on a concrete run the first emitted row is the
domain-rank taxon and the last is the species-rank taxon, so the emitted
rank sequence is not the claimed deepest-to-shallowest order. -/
theorem C5_counterexample :
    (gOf gRes1).rows.head? = some ("d__A", 100) ∧
    (gOf gRes1).rows.getLast? = some ("d__A;p__B;c__C;o__D;f__E;g__F;s__G", 100) ∧
    (gOf gRes1).rows.map Prod.fst ≠
      ["d__A;p__B;c__C;o__D;f__E;g__F;s__G", "d__A;p__B;c__C;o__D;f__E;g__F",
       "d__A;p__B;c__C;o__D;f__E", "d__A;p__B;c__C;o__D", "d__A;p__B;c__C",
       "d__A;p__B", "d__A"] := by
  decide

/-- C5, amended: both pipelines emit the taxon rows rank by rank from
shallowest to deepest — the repair pipeline writes level 0 (domain) through
level 7, and the conversion pipeline reverses its rank ladder back before
writing, so it also emits `d` first; the ladder direction does not differ
between the two pipelines. -/
theorem C5_write_order_amended :
    (fixOf fixRes1).outLines =
      [ "#mpa_vJun23_CHOCOPhlAnSGB_202403\n",
        "#clade_name\tNCBI_tax_id\trelative_abundance\tadditional_species\n",
        "UNCLASSIFIED\t-1\t5.0\n",
        "d__Bacteria\t2\t95.0\t\n",
        "d__Bacteria|p__Firmicutes\t2|1239\t95.0\t\n",
        "d__Bacteria|p__Firmicutes|c__Bacilli\t2|1239|91061\t95.0\t\n",
        "d__Bacteria|p__Firmicutes|c__Bacilli|o__Lactobacillales\t2|1239|91061|186826\t95.0\t\n",
        "d__Bacteria|p__Firmicutes|c__Bacilli|o__Lactobacillales|f__Lactobacillaceae\t2|1239|91061|186826|33958\t95.0\t\n",
        "d__Bacteria|p__Firmicutes|c__Bacilli|o__Lactobacillales|f__Lactobacillaceae|g__Lactobacillus\t2|1239|91061|186826|33958|1578\t95.0\t\n",
        "d__Bacteria|p__Firmicutes|c__Bacilli|o__Lactobacillales|f__Lactobacillaceae|g__Lactobacillus|s__Foo\t2|1239|91061|186826|33958|1578|999\t95.0\t\n",
        "d__Bacteria|p__Firmicutes|c__Bacilli|o__Lactobacillales|f__Lactobacillaceae|g__Lactobacillus|s__Foo|t__SGB1\t2|1239|91061|186826|33958|1578|999|1\t95.0\t\n" ] ∧
    (gOf gRes1).rows =
      [("d__A", 100), ("d__A;p__B", 100), ("d__A;p__B;c__C", 100),
       ("d__A;p__B;c__C;o__D", 100), ("d__A;p__B;c__C;o__D;f__E", 100),
       ("d__A;p__B;c__C;o__D;f__E;g__F", 100),
       ("d__A;p__B;c__C;o__D;f__E;g__F;s__G", 100)] ∧
    sgbWriteLevels = gtdbTaxLevels := by
  decide

/-- C6, counterexample: the claimed formula fails in both remaining
scopes.  In the merged repair pipeline, on the single-chain run with
aggregated value 30, total 40 per column, the level-1 row should carry
`round(100·30/40, 5) = 75.0` but the emitted value is `187.5` — the
in-place normalization re-rounds the already-renormalized aliased cell.
In the conversion pipeline a concrete run emits the value `100/3`, which
is not equal to its own 5-decimal rounding, so that value is not
`round(100·v/total, 5)` of anything. -/
theorem C6_counterexample :
    ((mOf mRes1).levelRows.getD 1 [] = [("d__B|p__Firmicutes", [375/2])] ∧
      round5 (100 * 30 / (30 + 10)) = 75 ∧ (375/2 : ℚ) ≠ 75) ∧
    (("d__A;p__B;c__C;o__D;f__E;g__F;s__G1", 100/3) ∈ (gOf gRes2).rows ∧
      round5 (100/3) ≠ 100/3) := by
  decide

/-- C6, amended: every value the repair pipeline writes is rounded to
exactly 5 decimal places — an integer multiple of `10⁻⁵` — both for scalar
cells and elementwise for merged vector cells; for non-merged profiles the
written value is `round(100·v/total, 5)` of the aggregated abundance, and
in merged mode this equality per column holds at the shallowest rank
(normalized before any in-place mutation, e.g. `75 = round5(100·30/40)` on
the concrete run) but fails at deeper aliased ranks, which emit `round5`
applied to an already-renormalized value.  The conversion pipeline does
not round at all: it writes the exact quotient `v·100/total` — on a
concrete run `200/3`, which is not a multiple of `10⁻⁵`. -/
theorem C6_rounding_amended :
    (∀ (u : ℚ) (t : AList Entry) (p : String × Entry),
      p ∈ normLevel u t → (p.2.ab * 100000).den = 1) ∧
    (∀ (sums uncl cell : List ℚ) (v : ℚ),
      v ∈ normCell sums uncl cell → (v * 100000).den = 1) ∧
    ((mOf mRes1).levelRows.getD 0 [] = [("d__B", [75])] ∧
      round5 (100 * 30 / (30 + 10)) = 75) ∧
    (("d__A;p__B;c__C;o__D;f__E;g__F;s__G2", 200/3) ∈ (gOf gRes2).rows ∧
      ((200/3 : ℚ) * 100000).den ≠ 1) :=
  ⟨normLevel_multiple, normCell_multiple, by decide, by decide⟩

/-- C6, witness: the multiple-of-`10⁻⁵` property evaluated on a concrete
renormalized scalar table entry and a concrete merged cell value. -/
theorem C6_witness :
    ((⟨"n", (100 : ℚ), ""⟩ : Entry).ab * 100000).den = 1 ∧
    ((75 : ℚ) * 100000).den = 1 :=
  ⟨C6_rounding_amended.1 0 [("k", ⟨"n", 1, ""⟩)] ("k", ⟨"n", 100, ""⟩) (by decide),
   C6_rounding_amended.2.1 [30] [10] [30] 75 (by decide)⟩

/-- C7, counterexample: the two Jun23 replacements are joined by `elif`, so
on a raw line containing both substrings only the phylum rename fires and
the family substring survives in the output. -/
theorem C7_counterexample :
    jun23Fix "d__E|p__Bacillota|c__S|f__Saccharomycetales_unclassified|t__X\tn\t1.0" =
      "d__E|p__Firmicutes|c__S|f__Saccharomycetales_unclassified|t__X\tn\t1.0" ∧
    strContains
      (jun23Fix "d__E|p__Bacillota|c__S|f__Saccharomycetales_unclassified|t__X\tn\t1.0")
      "f__Saccharomycetales_unclassified" = true := by
  decide

/-- C7, amended: under the Jun23 release at most one of the two fixed
substring replacements is applied to the raw line before field-splitting:
the phylum rename whenever its substring is present (taking precedence),
the family rename only when the phylum substring is absent, and the line is
unchanged when neither substring occurs. -/
theorem C7_jun23_replacements_amended :
    ∀ line : String,
      (strContains line "p__Bacillota" = true →
        jun23Fix line = pythonReplace line "p__Bacillota" "p__Firmicutes") ∧
      (strContains line "p__Bacillota" = false →
        strContains line "f__Saccharomycetales_unclassified" = true →
        jun23Fix line =
          pythonReplace line "f__Saccharomycetales_unclassified" "f__Debaryomycetaceae") ∧
      (strContains line "p__Bacillota" = false →
        strContains line "f__Saccharomycetales_unclassified" = false →
        jun23Fix line = line) := by
  intro line
  refine ⟨fun h => ?_, fun h1 h2 => ?_, fun h1 h2 => ?_⟩
  · simp [jun23Fix, h]
  · simp [jun23Fix, h1, h2]
  · simp [jun23Fix, h1, h2]

/-- C7, witness: the phylum-rename branch evaluated on the raw line that
contains both substrings. -/
theorem C7_witness :
    jun23Fix "d__E|p__Bacillota|f__Saccharomycetales_unclassified\tn\t1.0" =
      pythonReplace "d__E|p__Bacillota|f__Saccharomycetales_unclassified\tn\t1.0"
        "p__Bacillota" "p__Firmicutes" :=
  (C7_jun23_replacements_amended
    "d__E|p__Bacillota|f__Saccharomycetales_unclassified\tn\t1.0").1 (by decide)

/-- C8, counterexample: the conversion pipeline does not write the
`UNCLASSIFIED` line verbatim — on a concrete run the input line
`UNCLASSIFIED\t-1\t5.0` is absent from the output, which instead carries
the reformatted line `UNCLASSIFIED\t5.0`. -/
theorem C8_counterexample :
    "UNCLASSIFIED\t-1\t5.0\n" ∈ gInput1 ∧
    "UNCLASSIFIED\t5.0\n" ∈ (gOf gRes1).out ∧
    "UNCLASSIFIED\t-1\t5.0\n" ∉ (gOf gRes1).out := by
  decide

/-- C8, amended: the profile-repair pipeline appends the `UNCLASSIFIED`
input line to the output character for character; the SGB-to-GTDB pipeline
instead re-emits it as `UNCLASSIFIED` followed by the reparsed abundance
value, dropping the other columns. -/
theorem C8_unclassified_passthrough_amended :
    (∀ (octF : AList (String × String)) (st : FixState) (line : String),
      strStartsWith line "UNCLASSIFIED" = true →
      strStartsWith line "#" = false →
      strStartsWith line "clade_name" = false →
      processLineFix octF st line =
        .ok { st with out := st.out ++ [line],
                      uncl := parseRat ((strSplit line '\t').getD 2 "") }) ∧
    (∀ (m : AList String) (st : GState) (line : String),
      strStartsWith line "UNCLASSIFIED" = true →
      strStartsWith line "#" = false →
      processLineSgb m st line =
        .ok { st with
                uncl := parseRat ((strSplit (strTrim line) '\t').getD 2 ""),
                out := st.out ++
                  ["UNCLASSIFIED\t" ++
                    showRatPy (parseRat ((strSplit (strTrim line) '\t').getD 2 "")) ++
                    "\n"] }) := by
  constructor
  · intro octF st line h1 h2 h3
    have hm := not_hash_not_mpa line h2
    simp [processLineFix, hm, h2, h3, h1]
  · intro m st line h1 h2
    have hm := not_hash_not_mpa' line h2
    simp [processLineSgb, hm, h1]

/-- C8, witness: both unclassified-line handlers evaluated on the concrete
line `UNCLASSIFIED\t-1\t7.5`. -/
theorem C8_witness :
    processLineFix [] initFixState "UNCLASSIFIED\t-1\t7.5\n" =
      .ok { initFixState with
              out := initFixState.out ++ ["UNCLASSIFIED\t-1\t7.5\n"],
              uncl := parseRat ((strSplit "UNCLASSIFIED\t-1\t7.5\n" '\t').getD 2 "") } ∧
    processLineSgb [] initGState "UNCLASSIFIED\t-1\t7.5\n" =
      .ok { initGState with
              uncl := parseRat ((strSplit (strTrim "UNCLASSIFIED\t-1\t7.5\n") '\t').getD 2 ""),
              out := initGState.out ++
                ["UNCLASSIFIED\t" ++
                  showRatPy (parseRat ((strSplit (strTrim "UNCLASSIFIED\t-1\t7.5\n") '\t').getD 2 "")) ++
                  "\n"] } :=
  ⟨C8_unclassified_passthrough_amended.1 [] initFixState "UNCLASSIFIED\t-1\t7.5\n"
      (by decide) (by decide) (by decide),
   C8_unclassified_passthrough_amended.2 [] initGState "UNCLASSIFIED\t-1\t7.5\n"
      (by decide) (by decide)⟩

/-- C9: if every header line of the input carries a release tag that is
neither `mpa_vJun23_CHOCOPhlAnSGB_202307` nor
`mpa_vOct22_CHOCOPhlAnSGB_202212` (which covers an absent tag), and the
input contains a species-level data line, then the repair pipeline aborts
with a fatal error and the run never completes successfully. -/
theorem C9_unrecognized_release_fatal :
    ∀ (octF : AList (String × String)) (lines : List String),
      (∀ l ∈ lines, strStartsWith l "#mpa_v" = true →
        strDrop (strTrim l) 1 ≠ recognizedJun23 ∧
        strDrop (strTrim l) 1 ≠ recognizedOct22) →
      (∃ l ∈ lines, isSpeciesDataLine l = true) →
      isOkE (fix_relab_mpa4 octF lines) = false := by
  intro octF lines hhdr hex
  rw [fix_relab_isOk]
  exact runLinesFix_bad octF lines hhdr initFixState (Or.inl rfl) hex

/-- C9, witness: a run with an unrecognized header release and one species
data line aborts. -/
theorem C9_witness :
    isOkE (fix_relab_mpa4 [] ["#mpa_vFoo_1\n", "d__B|s__X|t__SGB1\t2\t5.0\n"]) = false :=
  C9_unrecognized_release_fatal [] ["#mpa_vFoo_1\n", "d__B|s__X|t__SGB1\t2\t5.0\n"]
    (by decide) (by decide)

/-- C10: dictionary assignment to the leaf rank table overwrites — for any
table, writing the same key twice leaves exactly the later value — and on a
concrete run where two species rows collide after label fixing (40.0 then
60.0, with unclassified 40.0), the leaf table and every ancestor rank carry
only the later value 60. -/
theorem C10_duplicate_leaf_overwrite :
    (∀ (t : AList Entry) (k : String) (v₁ v₂ : Entry),
      alGet (alPut (alPut t k v₁) k v₂) k = some v₂) ∧
    alGet ((fixOf fixRes2).finalLevels.getD 7 [])
      "d__Bacteria|p__Firmicutes|c__C|o__O|f__F|g__G|s__S|t__SGB7" =
      some ⟨"2|3|4|5|6|7|8|9", 60, ""⟩ ∧
    alGet ((fixOf fixRes2).finalLevels.getD 0 []) "d__Bacteria" =
      some ⟨"2", 60, ""⟩ :=
  ⟨fun t k v₁ v₂ => alGet_alPut_self (alPut t k v₁) k v₂, by decide, by decide⟩

end MetaPhlAn
